import Mathlib

/-!
Verification development for the student-appeal-manager server.

The repository is an Express/Mongoose application.  The definitions below are a
shallow embedding of the appeal data model (models/Appeal.js) and of the route
handlers that mutate or project appeals (routes/appeals.js, routes/reviewer.js,
routes/admin.js, and the strict reviewer surface).  Object ids are modelled as
naturals, dates as naturals (milliseconds), the Mongo collection as a list of
appeal documents, and a thrown exception caught by a route's catch block as the
serverError result.  Requests are assumed to have passed the express-validator
middleware chain exactly where the chain is modelled by explicit guards.
-/

namespace SAM

/-- Appeal status enum from the Appeal schema. -/
inductive Status
  | submitted
  | underReview
  | awaitingInformation
  | decisionMade
  | resolved
  | rejected
deriving DecidableEq, Repr

/-- Priority enum from the Appeal schema. -/
inductive Priority
  | low
  | medium
  | high
  | urgent
deriving DecidableEq, Repr

/-- Decision outcome enum from the Appeal schema. -/
inductive Outcome
  | upheld
  | partiallyUpheld
  | rejected
  | withdrawn
deriving DecidableEq, Repr

/-- A note subdocument: content, author, visibility tag. -/
structure Note where
  content : String
  author : Nat
  isInternal : Bool
deriving DecidableEq, Repr

/-- A timeline subdocument: action, description, performedBy. -/
structure TimelineEntry where
  action : String
  description : String
  performedBy : Nat
deriving DecidableEq, Repr

/-- The decision subdocument. -/
structure Decision where
  outcome : Outcome
  reason : String
  decisionDate : Nat
  decidedBy : Nat
deriving DecidableEq, Repr

/-- The Appeal aggregate (nanoid schema of models/Appeal.js), restricted to the
fields read or written by the embedded routes.  caseKey is the Mongo `_id`,
appealId the human-readable identifier generated by the pre-save hook. -/
structure Appeal where
  caseKey : Nat
  appealId : String
  student : Nat
  status : Status
  priority : Priority
  assignedReviewer : Option Nat
  assignedAdmin : Option Nat
  deadline : Option Nat
  decision : Option Decision
  timeline : List TimelineEntry
  notes : List Note
deriving DecidableEq, Repr

/-- The appeal collection. -/
abbrev Store := List Appeal

/-- `Appeal.findById`: first document whose `_id` matches. -/
def storeGet : Store → Nat → Option Appeal
  | [], _ => none
  | a :: t, cid => if a.caseKey = cid then some a else storeGet t cid

/-- `Appeal.findOne with both _id and student`: the student-surface lookup. -/
def storeGetOwned : Store → Nat → Nat → Option Appeal
  | [], _, _ => none
  | a :: t, cid, uid =>
    if a.caseKey = cid ∧ a.student = uid then some a else storeGetOwned t cid uid

/-- Persisting the mutated document back under its `_id` (`appeal.save()` /
`findByIdAndUpdate`). -/
def storePut : Store → Nat → Appeal → Store
  | [], _, _ => []
  | b :: t, cid, a => (if b.caseKey = cid then a else b) :: storePut t cid a

/-- `Appeal.exists with an appealId filter`, used by the pre-save hook. -/
def storeHasAppealId (s : Store) (idStr : String) : Bool :=
  s.any (fun a => a.appealId == idStr)

/-- Inserting a brand-new document; the schema declares `unique: true` on
appealId, so the insert fails (duplicate-key error) when the id is taken. -/
def storeInsertNew (s : Store) (a : Appeal) : Option Store :=
  if storeHasAppealId s a.appealId then none else some (s ++ [a])

/-- Route results.  ok carries the (updated) appeal returned in the response
body; serverError is a thrown exception landing in the catch block. -/
inductive ApiResult
  | ok (a : Appeal)
  | notFound
  | forbidden
  | badRequest
  | serverError
deriving DecidableEq, Repr

/-- Whether a result is a success. -/
def ApiResult.isOk : ApiResult → Bool
  | .ok _ => true
  | _ => false

/-- Enum value rendered into description strings. -/
def statusText : Status → String
  | .submitted => "submitted"
  | .underReview => "under review"
  | .awaitingInformation => "awaiting information"
  | .decisionMade => "decision made"
  | .resolved => "resolved"
  | .rejected => "rejected"

/-- Enum value rendered into description strings. -/
def outcomeText : Outcome → String
  | .upheld => "upheld"
  | .partiallyUpheld => "partially upheld"
  | .rejected => "rejected"
  | .withdrawn => "withdrawn"

/-! ### Identity allocator (models/Appeal.js pre-save hooks)

The nanoid schema draws 6-digit codes from `customAlphabet("0123456789", 6)`;
the draws are modelled as the list `codes` consumed in order, the current
timestamp's last six digits as `ts6`, and the store probe as a predicate. -/

/-- Candidate identifier built in the retry loop. -/
def genCandidate (year : Nat) (code : String) : String :=
  "APL-" ++ toString year ++ "-" ++ code

/-- The retry loop body: first candidate whose existence probe fails. -/
def firstFresh (probe : String → Bool) (year : Nat) : List String → Option String
  | [] => none
  | c :: cs =>
    let cand := genCandidate year c
    if probe cand then firstFresh probe year cs else some cand

/-- The nanoid pre-save generator: up to 5 probe-and-check attempts, then the
timestamp fallback `APL-year-last6(Date.now())`. -/
def generateAppealId (probe : String → Bool) (year : Nat) (codes : List String)
    (ts6 : String) : String :=
  match firstFresh probe year (codes.take 5) with
  | some cand => cand
  | none => genCandidate year ts6

/-- The whole pre-save hook: a document that already carries an appealId is
left untouched (`if (this.appealId) return next()`). -/
def preSaveAppealId (existing : Option String) (probe : String → Bool) (year : Nat)
    (codes : List String) (ts6 : String) : String :=
  match existing with
  | some idStr => idStr
  | none => generateAppealId probe year codes ts6

/-- JavaScript `padStart(3, "0")`. -/
def padStart3 (s : String) : String :=
  if 3 ≤ s.length then s else String.mk (List.replicate (3 - s.length) '0') ++ s

/-- The legacy (first) schema pre-save hook: a 3-digit random code with no
store probe: `Math.floor(Math.random() * 1000).toString().padStart(3, "0")`.
`rand` is the drawn value, below 1000. -/
def legacyAppealId (existing : Option String) (year rand : Nat) : String :=
  match existing with
  | some idStr => idStr
  | none => "APL-" ++ toString year ++ "-" ++ padStart3 (toString rand)

/-- A 6-digit numeric code. -/
def sixDigit (c : String) : Prop :=
  c.length = 6 ∧ c.data.all Char.isDigit = true

instance (c : String) : Decidable (sixDigit c) := by
  unfold sixDigit
  infer_instance

/-- Format demanded by the spec: `APL-year-code` with a 6-digit numeric code.
Stated from the words of the spec, to be compared with the generators. -/
def specCaseIdFormat (year : Nat) (s : String) : Prop :=
  ∃ code : String, sixDigit code ∧ s = "APL-" ++ toString year ++ "-" ++ code

/-- Enum value rendered into description strings. -/
def priorityText : Priority → String
  | .low => "low"
  | .medium => "medium"
  | .high => "high"
  | .urgent => "urgent"

/-- The trim sanitizer of express-validator (JavaScript trim), written over
the character list so that concrete instances evaluate. -/
def jsTrim (s : String) : String :=
  String.mk ((s.data.dropWhile Char.isWhitespace).reverse.dropWhile Char.isWhitespace).reverse

/-! ### Reviewer authorization guards

The source carries two variants of the assignment check.  The lenient one
(routes/reviewer.js, the shared decision route, and the note route of the
strict surface) rejects only a case assigned to somebody else; the strict one
(the strict reviewer surface status/decision routes) additionally rejects an
unassigned case. -/

/-- `appeal.assignedReviewer and it differs from the requester` (lenient). -/
def assignedToOther (a : Appeal) (uid : Nat) : Bool :=
  match a.assignedReviewer with
  | some r => r != uid
  | none => false

/-- `no assignedReviewer, or it differs from the requester` (strict). -/
def notStrictlyAssigned (a : Appeal) (uid : Nat) : Bool :=
  match a.assignedReviewer with
  | some r => r != uid
  | none => true

/-! ### Student surface (routes/appeals.js, nanoid version) -/

/-- The request body fields of POST /api/appeals that the handler inspects
for its own guards.  The remaining payload fields are copied verbatim into the
document and are not read by any embedded property. -/
structure CreateReq where
  declaration : Bool
  deadlineCheck : Bool
  confirmAll : Bool
  studentId : String
  appealType : String
deriving DecidableEq, Repr

/-- POST /api/appeals: rejects unless all three confirmation flags are truthy
and the supplied studentId equals the authenticated student's registered one;
then builds the document (status defaults to submitted), lets the pre-save
hook allocate the appealId against the current store, persists, and appends
the submitted timeline entry.  The two saves of the source are collapsed into
one insert of the final document; a duplicate-key failure of the unique index
surfaces in the catch block. -/
def createAppeal (s : Store) (uid : Nat) (userStudentId : String) (req : CreateReq)
    (newKey : Nat) (year : Nat) (codes : List String) (ts6 : String) :
    ApiResult × Store :=
  if !(req.declaration && req.deadlineCheck && req.confirmAll) then (.badRequest, s)
  else if req.studentId ≠ userStudentId then (.badRequest, s)
  else
    let aid := generateAppealId (storeHasAppealId s) year codes ts6
    let a : Appeal :=
      { caseKey := newKey, appealId := aid, student := uid,
        status := .submitted, priority := .medium,
        assignedReviewer := none, assignedAdmin := none,
        deadline := none, decision := none,
        timeline := [⟨"Appeal submitted",
          "Appeal created and submitted for review - Type: " ++ req.appealType, uid⟩],
        notes := [] }
    match storeInsertNew s a with
    | some s' => (.ok a, s')
    | none => (.serverError, s)

/-- GET /api/appeals/:id on the plain student surface: owner-scoped findOne,
then the response is sent with the notes list as stored — no internal-note
filter.  When the lookup misses, the handler reads `appeal.evidence` before
its null check, so the thrown TypeError lands in the catch block (500). -/
def studentGetAppeal (s : Store) (uid cid : Nat) : ApiResult :=
  match storeGetOwned s cid uid with
  | none => .serverError
  | some a => .ok a

/-- GET /api/appeals/:id on the multipart student surface: owner-scoped
findOne, then `appeal.notes = appeal.notes.filter((note) => !note.isInternal)`
before responding.  The missing-case path throws as on the plain surface. -/
def studentGetAppealFiltered (s : Store) (uid cid : Nat) : ApiResult :=
  match storeGetOwned s cid uid with
  | none => .serverError
  | some a => .ok { a with notes := a.notes.filter (fun n => !n.isInternal) }

/-- POST /api/appeals/:id/notes on the student surface: owner-scoped findOne
(missing or foreign case gives 404), forced isInternal = false, then a note
push and a timeline push. -/
def studentAddNote (s : Store) (uid : Nat) (uname : String) (cid : Nat)
    (content : String) : ApiResult × Store :=
  if jsTrim content = "" then (.badRequest, s)
  else
    match storeGetOwned s cid uid with
    | none => (.notFound, s)
    | some a =>
      let a' := { a with
        notes := a.notes ++ [⟨jsTrim content, uid, false⟩],
        timeline := a.timeline ++
          [⟨"Note added", "Note added by student: " ++ uname, uid⟩] }
      (.ok a', storePut s cid a')

/-- PUT /api/appeals/:id/decision (shared admin-or-reviewer surface): lenient
assignment check against the requester, decision overwrite, status always
becomes decision made, one timeline entry. -/
def sharedDecision (s : Store) (uid cid : Nat) (oc : Outcome) (reason : String)
    (now : Nat) : ApiResult × Store :=
  if jsTrim reason = "" then (.badRequest, s)
  else
    match storeGet s cid with
    | none => (.notFound, s)
    | some a =>
      if assignedToOther a uid then (.forbidden, s)
      else
        let a' := { a with
          decision := some ⟨oc, jsTrim reason, now, uid⟩,
          status := .decisionMade,
          timeline := a.timeline ++ [⟨"Decision made",
            "Decision: " ++ outcomeText oc ++ " - " ++ jsTrim reason, uid⟩] }
        (.ok a', storePut s cid a')

/-! ### Reviewer surface (routes/reviewer.js, lenient assignment policy) -/

/-- PUT /api/reviewer/appeals/:id/status: the validator refuses submitted as a
target; lenient assignment check; sets status, appends one timeline entry and,
when the optional notes field is truthy, one internal note. -/
def reviewerUpdateStatus (s : Store) (rid : Nat) (rname : String) (cid : Nat)
    (st : Status) (note : Option String) : ApiResult × Store :=
  if st = Status.submitted then (.badRequest, s)
  else
    match storeGet s cid with
    | none => (.notFound, s)
    | some a =>
      if assignedToOther a rid then (.forbidden, s)
      else
        let a' := { a with
          status := st,
          timeline := a.timeline ++ [⟨"Status updated",
            "Status changed to: " ++ statusText st ++ " by reviewer: " ++ rname, rid⟩],
          notes := match note with
            | some n => if n = "" then a.notes else a.notes ++ [⟨n, rid, true⟩]
            | none => a.notes }
        (.ok a', storePut s cid a')

/-- POST /api/reviewer/appeals/:id/notes: lenient assignment check, note with
isInternal defaulting to true, one timeline entry. -/
def reviewerAddNote (s : Store) (rid : Nat) (rname : String) (cid : Nat)
    (content : String) (internal : Option Bool) : ApiResult × Store :=
  if jsTrim content = "" then (.badRequest, s)
  else
    match storeGet s cid with
    | none => (.notFound, s)
    | some a =>
      if assignedToOther a rid then (.forbidden, s)
      else
        let a' := { a with
          notes := a.notes ++ [⟨jsTrim content, rid, internal.getD true⟩],
          timeline := a.timeline ++ [⟨"Note added",
            "Internal note added by reviewer: " ++ rname, rid⟩] }
        (.ok a', storePut s cid a')

/-- PUT /api/reviewer/appeals/:id/decision: lenient assignment check, decision
overwrite, status resolved when the outcome is withdrawn and decision made
otherwise, one timeline entry. -/
def reviewerDecision (s : Store) (rid : Nat) (rname : String) (cid : Nat)
    (oc : Outcome) (reason : String) (now : Nat) : ApiResult × Store :=
  if jsTrim reason = "" then (.badRequest, s)
  else
    match storeGet s cid with
    | none => (.notFound, s)
    | some a =>
      if assignedToOther a rid then (.forbidden, s)
      else
        let a' := { a with
          decision := some ⟨oc, jsTrim reason, now, rid⟩,
          status := if oc = Outcome.withdrawn then Status.resolved else Status.decisionMade,
          timeline := a.timeline ++ [⟨"Decision made",
            "Decision: " ++ outcomeText oc ++ " - " ++ jsTrim reason
              ++ " by reviewer: " ++ rname, rid⟩] }
        (.ok a', storePut s cid a')

/-- PUT /api/reviewer/appeals/:id/request-info: the only deadline-writing path
in the source.  Lenient assignment check; sets status to awaiting information,
stores the supplied date without comparing it to the current time, appends one
timeline entry; the optional reason text goes into the description only. -/
def requestInfo (s : Store) (rid : Nat) (rname : String) (cid : Nat)
    (details : String) (dl : Option Nat) : ApiResult × Store :=
  if jsTrim details = "" then (.badRequest, s)
  else
    match storeGet s cid with
    | none => (.notFound, s)
    | some a =>
      if assignedToOther a rid then (.forbidden, s)
      else
        let a' := { a with
          status := Status.awaitingInformation,
          deadline := match dl with | some d => some d | none => a.deadline,
          timeline := a.timeline ++ [⟨"Information requested",
            "Additional information requested: " ++ jsTrim details
              ++ (match dl with
                  | some d => " - Deadline: " ++ toString d
                  | none => "")
              ++ " by reviewer: " ++ rname, rid⟩] }
        (.ok a', storePut s cid a')

/-! ### Strict reviewer surface (the multipart reviewer route file) -/

/-- PUT /appeals/:id/status on the strict surface: as the lenient variant but
an unassigned case is also forbidden. -/
def strictUpdateStatus (s : Store) (rid : Nat) (rname : String) (cid : Nat)
    (st : Status) (note : Option String) : ApiResult × Store :=
  if st = Status.submitted then (.badRequest, s)
  else
    match storeGet s cid with
    | none => (.notFound, s)
    | some a =>
      if notStrictlyAssigned a rid then (.forbidden, s)
      else
        let a' := { a with
          status := st,
          timeline := a.timeline ++ [⟨"Status updated",
            "Status changed to: " ++ statusText st ++ " by reviewer: " ++ rname, rid⟩],
          notes := match note with
            | some n => if n = "" then a.notes else a.notes ++ [⟨n, rid, true⟩]
            | none => a.notes }
        (.ok a', storePut s cid a')

/-- POST /appeals/:id/notes on the strict surface: the source keeps the
lenient check here (forbidden only when assigned to somebody else). -/
def strictAddNote (s : Store) (rid : Nat) (rname : String) (cid : Nat)
    (content : String) (internal : Option Bool) : ApiResult × Store :=
  if jsTrim content = "" then (.badRequest, s)
  else
    match storeGet s cid with
    | none => (.notFound, s)
    | some a =>
      if assignedToOther a rid then (.forbidden, s)
      else
        let a' := { a with
          notes := a.notes ++ [⟨jsTrim content, rid, internal.getD true⟩],
          timeline := a.timeline ++ [⟨"Note added",
            "Internal note added by reviewer: " ++ rname, rid⟩] }
        (.ok a', storePut s cid a')

/-- PUT /appeals/:id/decision on the strict surface: strict assignment check,
status always becomes decision made. -/
def strictDecision (s : Store) (rid : Nat) (cid : Nat) (oc : Outcome)
    (reason : String) (now : Nat) : ApiResult × Store :=
  if jsTrim reason = "" then (.badRequest, s)
  else
    match storeGet s cid with
    | none => (.notFound, s)
    | some a =>
      if notStrictlyAssigned a rid then (.forbidden, s)
      else
        let a' := { a with
          decision := some ⟨oc, jsTrim reason, now, rid⟩,
          status := Status.decisionMade,
          timeline := a.timeline ++ [⟨"Decision made",
            "Decision: " ++ outcomeText oc ++ " - " ++ jsTrim reason, rid⟩] }
        (.ok a', storePut s cid a')

/-! ### Admin surface (routes/admin.js, first version) -/

/-- PUT /api/admin/appeals/:id/status: admin override, any status value, one
timeline entry; the optional reason text only decorates the description. -/
def adminUpdateStatus (s : Store) (aid : Nat) (aname : String) (cid : Nat)
    (st : Status) (reason : Option String) : ApiResult × Store :=
  match storeGet s cid with
  | none => (.notFound, s)
  | some a =>
    let a' := { a with
      status := st,
      timeline := a.timeline ++ [⟨"Status updated",
        "Status changed from " ++ statusText a.status ++ " to " ++ statusText st
          ++ " by admin: " ++ aname
          ++ (match reason with
              | some r => if r = "" then "" else " - Reason: " ++ r
              | none => ""), aid⟩] }
    (.ok a', storePut s cid a')

/-- PUT /api/admin/appeals/:id/priority: sets priority, one timeline entry. -/
def adminUpdatePriority (s : Store) (aid : Nat) (aname : String) (cid : Nat)
    (p : Priority) : ApiResult × Store :=
  match storeGet s cid with
  | none => (.notFound, s)
  | some a =>
    let a' := { a with
      priority := p,
      timeline := a.timeline ++ [⟨"Priority updated",
        "Priority changed from " ++ priorityText a.priority ++ " to "
          ++ priorityText p ++ " by admin: " ++ aname, aid⟩] }
    (.ok a', storePut s cid a')

/-- POST /api/admin/appeals/:id/notes: note with isInternal defaulting to
true, plus one timeline entry, persisted in a single save. -/
def adminAddNote (s : Store) (aid : Nat) (aname : String) (cid : Nat)
    (content : String) (internal : Option Bool) : ApiResult × Store :=
  if jsTrim content = "" then (.badRequest, s)
  else
    match storeGet s cid with
    | none => (.notFound, s)
    | some a =>
      let a' := { a with
        notes := a.notes ++ [⟨jsTrim content, aid, internal.getD true⟩],
        timeline := a.timeline ++ [⟨"Internal note added",
          "Note added by admin: " ++ aname, aid⟩] }
      (.ok a', storePut s cid a')

/-- Field updates shared by single and bulk assignment: a supplied (truthy)
value overwrites, an omitted one leaves the field alone. -/
def applyAssignFields (a : Appeal) (rev adm : Option Nat) (prio : Option Priority) :
    Appeal :=
  { a with
    assignedReviewer := match rev with | some r => some r | none => a.assignedReviewer,
    assignedAdmin := match adm with | some x => some x | none => a.assignedAdmin,
    priority := match prio with | some p => p | none => a.priority }

/-- Description suffix listing which assignment fields changed. -/
def assignDescription (base : String) (rev adm : Option Nat)
    (prio : Option Priority) : String :=
  base ++ (if rev.isSome then " - Reviewer assigned" else "")
       ++ (if adm.isSome then " - Admin assigned" else "")
       ++ (match prio with
           | some p => " - Priority set to " ++ priorityText p
           | none => "")

/-- PUT /api/admin/appeals/:id/assign: applies any subset of reviewer, admin
and priority, appends one timeline entry summarizing the changes. -/
def adminAssign (s : Store) (aid : Nat) (aname : String) (cid : Nat)
    (rev adm : Option Nat) (prio : Option Priority) : ApiResult × Store :=
  match storeGet s cid with
  | none => (.notFound, s)
  | some a =>
    let a' := { applyAssignFields a rev adm prio with
      timeline := a.timeline ++ [⟨"Appeal assigned",
        assignDescription ("Updated by admin: " ++ aname) rev adm prio, aid⟩] }
    (.ok a', storePut s cid a')

/-- POST /api/admin/appeals/bulk-assign: the per-appeal loop.  Each key is
looked up in the store as left by the previous iterations; a miss is recorded
in the failures list and the loop continues with the next key.  The returned
triple carries the keys of the successful updates, the failed keys, and the
final store (the source stores richer per-key result objects keyed by the same
ids). -/
def bulkAssign (aid : Nat) (aname : String) (rev adm : Option Nat)
    (prio : Option Priority) : List Nat → Store → List Nat × List Nat × Store
  | [], s => ([], [], s)
  | cid :: rest, s =>
    match storeGet s cid with
    | none =>
      let r := bulkAssign aid aname rev adm prio rest s
      (r.1, cid :: r.2.1, r.2.2)
    | some a =>
      let a' := { applyAssignFields a rev adm prio with
        timeline := a.timeline ++ [⟨"Bulk assignment",
          assignDescription ("Bulk assignment by admin: " ++ aname) rev adm prio, aid⟩] }
      let r := bulkAssign aid aname rev adm prio rest (storePut s cid a')
      (cid :: r.1, r.2.1, r.2.2)

/-! ### The mutating operations as one step relation

Used for the timeline invariants: one constructor per state-changing or
note-adding operation kind, drawn from the surfaces cited by the spec. -/

/-- A single mutating call with its arguments. -/
inductive MutOp
  | revStatus (rid : Nat) (rname : String) (cid : Nat) (st : Status) (note : Option String)
  | admStatus (aid : Nat) (aname : String) (cid : Nat) (st : Status) (reason : Option String)
  | revDecision (rid : Nat) (rname : String) (cid : Nat) (oc : Outcome) (reason : String) (now : Nat)
  | stuNote (uid : Nat) (uname : String) (cid : Nat) (content : String)
  | admNote (aid : Nat) (aname : String) (cid : Nat) (content : String) (internal : Option Bool)
  | admAssign (aid : Nat) (aname : String) (cid : Nat) (rev adm : Option Nat) (prio : Option Priority)
  | admPriority (aid : Nat) (aname : String) (cid : Nat) (p : Priority)
deriving DecidableEq, Repr

/-- The case key an operation addresses. -/
def MutOp.target : MutOp → Nat
  | .revStatus _ _ cid _ _ => cid
  | .admStatus _ _ cid _ _ => cid
  | .revDecision _ _ cid _ _ _ => cid
  | .stuNote _ _ cid _ => cid
  | .admNote _ _ cid _ _ => cid
  | .admAssign _ _ cid _ _ _ => cid
  | .admPriority _ _ cid _ => cid

/-- Dispatch to the corresponding route handler.  The student note operation
is owner-scoped as in the source. -/
def runMutOp : MutOp → Store → ApiResult × Store
  | .revStatus rid rname cid st note, s => reviewerUpdateStatus s rid rname cid st note
  | .admStatus aid aname cid st reason, s => adminUpdateStatus s aid aname cid st reason
  | .revDecision rid rname cid oc reason now, s => reviewerDecision s rid rname cid oc reason now
  | .stuNote uid uname cid content, s => studentAddNote s uid uname cid content
  | .admNote aid aname cid content internal, s => adminAddNote s aid aname cid content internal
  | .admAssign aid aname cid rev adm prio, s => adminAssign s aid aname cid rev adm prio
  | .admPriority aid aname cid p, s => adminUpdatePriority s aid aname cid p

/-- Run a sequence of mutating calls, keeping only the stores. -/
def runAll (ops : List MutOp) (s : Store) : Store :=
  ops.foldl (fun st op => (runMutOp op st).2) s

/-- Whether every call in the sequence succeeds when run in order. -/
def allOk : List MutOp → Store → Bool
  | [], _ => true
  | op :: rest, s =>
    match runMutOp op s with
    | (.ok _, s') => allOk rest s'
    | _ => false

/-- Timeline length of a given case in a store (0 when absent). -/
def timelineLen (s : Store) (cid : Nat) : Nat :=
  match storeGet s cid with
  | none => 0
  | some a => a.timeline.length

/-- The `_id` column of the collection.  Mongo guarantees these are distinct;
theorems that need this carry a Nodup hypothesis on it. -/
def storeKeys (s : Store) : List Nat := s.map (fun a => a.caseKey)

/-- Whether a returned case view carries an internal note. -/
def resultHasInternalNote : ApiResult → Bool
  | .ok v => v.notes.any (fun n => n.isInternal)
  | _ => false

/-- Deadline of a case as stored (none when the case is absent). -/
def storeDeadlineOf (s : Store) (cid : Nat) : Option Nat :=
  match storeGet s cid with
  | some a => a.deadline
  | none => none

/-! ### Concrete fixtures for evaluation -/

/-- A case under review, owned by student 2, assigned to reviewer 7, carrying
one public and one internal note. -/
def fxAppeal : Appeal :=
  { caseKey := 1, appealId := "APL-2025-123456", student := 2,
    status := Status.underReview, priority := Priority.medium,
    assignedReviewer := some 7, assignedAdmin := none,
    deadline := none, decision := none,
    timeline := [⟨"Appeal submitted",
      "Appeal created and submitted for review - Type: Other", 2⟩],
    notes := [⟨"visible student note", 2, false⟩, ⟨"internal remark", 7, true⟩] }

/-- A one-case collection. -/
def fxStore : Store := [fxAppeal]

/-- A second, unassigned case owned by student 3. -/
def fxAppeal2 : Appeal :=
  { fxAppeal with
    caseKey := 2, appealId := "APL-2025-654321",
    student := 3, assignedReviewer := none }

/-- A two-case collection with distinct keys 1 and 2. -/
def fxStore2 : Store := [fxAppeal, fxAppeal2]

/-- The document a successful creation against the empty store produces for
student 2 with the fixture payload. -/
def fxCreated : Appeal :=
  { caseKey := 1, appealId := "APL-2025-123456", student := 2,
    status := Status.submitted, priority := Priority.medium,
    assignedReviewer := none, assignedAdmin := none,
    deadline := none, decision := none,
    timeline := [⟨"Appeal submitted",
      "Appeal created and submitted for review - Type: Other", 2⟩],
    notes := [] }

/-! ### Store lemmas -/

theorem storeGet_key : ∀ {s : Store} {cid : Nat} {a : Appeal},
    storeGet s cid = some a → a.caseKey = cid := by
  intro s cid a h
  induction s with
  | nil => simp [storeGet] at h
  | cons b t ih =>
    simp only [storeGet] at h
    split at h
    · cases h; assumption
    · exact ih h

theorem storeGetOwned_key : ∀ {s : Store} {cid uid : Nat} {a : Appeal},
    storeGetOwned s cid uid = some a → a.caseKey = cid ∧ a.student = uid := by
  intro s cid uid a h
  induction s with
  | nil => simp [storeGetOwned] at h
  | cons b t ih =>
    simp only [storeGetOwned] at h
    split at h
    · cases h; assumption
    · exact ih h

theorem storeGet_mem_keys : ∀ {s : Store} {cid : Nat} {a : Appeal},
    storeGet s cid = some a → cid ∈ storeKeys s := by
  intro s cid a h
  induction s with
  | nil => simp [storeGet] at h
  | cons b t ih =>
    simp only [storeGet] at h
    split at h
    · simp [storeKeys]; left; omega
    · simp [storeKeys]
      right
      have := ih h
      simpa [storeKeys] using this

theorem storeGetOwned_mem_keys : ∀ {s : Store} {cid uid : Nat} {a : Appeal},
    storeGetOwned s cid uid = some a → cid ∈ storeKeys s := by
  intro s cid uid a h
  induction s with
  | nil => simp [storeGetOwned] at h
  | cons b t ih =>
    simp only [storeGetOwned] at h
    split at h
    · rename_i hb
      simp [storeKeys]
      left
      omega
    · simp [storeKeys]
      right
      have := ih h
      simpa [storeKeys] using this

theorem storeGetOwned_eq_get : ∀ {s : Store} {cid uid : Nat} {a : Appeal},
    (storeKeys s).Nodup → storeGetOwned s cid uid = some a →
    storeGet s cid = some a := by
  intro s cid uid a hs h
  induction s with
  | nil => simp [storeGetOwned] at h
  | cons b t ih =>
    simp only [storeKeys, List.map_cons, List.nodup_cons] at hs
    simp only [storeGetOwned] at h
    simp only [storeGet]
    split at h
    · rename_i hb
      cases h
      simp [hb.1]
    · rename_i hb
      split
      · rename_i hbk
        exfalso
        have hmem := storeGetOwned_mem_keys h
        exact hs.1 (by simpa [storeKeys, hbk] using hmem)
      · exact ih hs.2 h

theorem storeGet_put_same : ∀ {s : Store} {cid : Nat} {a a' : Appeal},
    storeGet s cid = some a → a'.caseKey = cid →
    storeGet (storePut s cid a') cid = some a' := by
  intro s cid a a' h hk
  induction s with
  | nil => simp [storeGet] at h
  | cons b t ih =>
    simp only [storeGet, storePut] at h ⊢
    split at h
    · rename_i hb
      simp [hb, hk]
    · rename_i hb
      simp only [if_neg hb]
      exact ih h

theorem storeGet_put_other : ∀ {s : Store} {cid x : Nat} {a' : Appeal},
    a'.caseKey = cid → x ≠ cid →
    storeGet (storePut s cid a') x = storeGet s x := by
  intro s cid x a' hk hx
  induction s with
  | nil => simp [storeGet, storePut]
  | cons b t ih =>
    simp only [storePut]
    by_cases hb : b.caseKey = cid
    · have h1 : a'.caseKey ≠ x := by omega
      have h2 : b.caseKey ≠ x := by omega
      simp only [if_pos hb, storeGet, if_neg (by omega : ¬ a'.caseKey = x),
        if_neg (by omega : ¬ b.caseKey = x)]
      exact ih
    · simp only [if_neg hb, storeGet]
      split
      · rfl
      · exact ih

theorem storeKeys_put : ∀ {s : Store} {cid : Nat} {a' : Appeal},
    a'.caseKey = cid → storeKeys (storePut s cid a') = storeKeys s := by
  intro s cid a' hk
  induction s with
  | nil => rfl
  | cons b t ih =>
    simp only [storeKeys] at ih
    by_cases hb : b.caseKey = cid
    · simp only [storePut, if_pos hb, storeKeys, List.map_cons]
      rw [ih, hk, hb]
    · simp only [storePut, if_neg hb, storeKeys, List.map_cons]
      rw [ih]

/-! ### Shape of a mutating step

Every embedded mutating handler either fails leaving the store untouched, or
succeeds by writing back the fetched document with one appended timeline
entry, preserving its `_id`, its appealId and its owner. -/

theorem runMutOp_spec (op : MutOp) (s : Store) (hs : (storeKeys s).Nodup) :
    ((runMutOp op s).1.isOk = false ∧ (runMutOp op s).2 = s)
    ∨ (∃ a a' e, storeGet s op.target = some a
        ∧ (runMutOp op s).1 = ApiResult.ok a'
        ∧ (runMutOp op s).2 = storePut s op.target a'
        ∧ a'.caseKey = a.caseKey ∧ a'.appealId = a.appealId ∧ a'.student = a.student
        ∧ a'.timeline = a.timeline ++ [e]) := by
  cases op with
  | revStatus rid rname cid st note =>
    simp only [runMutOp, MutOp.target, reviewerUpdateStatus]
    split
    · exact Or.inl ⟨rfl, rfl⟩
    · cases hga : storeGet s cid with
      | none => exact Or.inl ⟨rfl, rfl⟩
      | some a =>
        dsimp only
        split
        · exact Or.inl ⟨rfl, rfl⟩
        · exact Or.inr ⟨a, _, _, rfl, rfl, rfl, rfl, rfl, rfl, rfl⟩
  | admStatus aid aname cid st reason =>
    simp only [runMutOp, MutOp.target, adminUpdateStatus]
    cases hga : storeGet s cid with
    | none => exact Or.inl ⟨rfl, rfl⟩
    | some a =>
      exact Or.inr ⟨a, _, _, rfl, rfl, rfl, rfl, rfl, rfl, rfl⟩
  | revDecision rid rname cid oc reason now =>
    simp only [runMutOp, MutOp.target, reviewerDecision]
    split
    · exact Or.inl ⟨rfl, rfl⟩
    · cases hga : storeGet s cid with
      | none => exact Or.inl ⟨rfl, rfl⟩
      | some a =>
        dsimp only
        split
        · exact Or.inl ⟨rfl, rfl⟩
        · exact Or.inr ⟨a, _, _, rfl, rfl, rfl, rfl, rfl, rfl, rfl⟩
  | stuNote uid uname cid content =>
    simp only [runMutOp, MutOp.target, studentAddNote]
    split
    · exact Or.inl ⟨rfl, rfl⟩
    · cases hga : storeGetOwned s cid uid with
      | none => exact Or.inl ⟨rfl, rfl⟩
      | some a =>
        exact Or.inr ⟨a, _, _, storeGetOwned_eq_get hs hga, rfl, rfl, rfl, rfl, rfl, rfl⟩
  | admNote aid aname cid content internal =>
    simp only [runMutOp, MutOp.target, adminAddNote]
    split
    · exact Or.inl ⟨rfl, rfl⟩
    · cases hga : storeGet s cid with
      | none => exact Or.inl ⟨rfl, rfl⟩
      | some a =>
        exact Or.inr ⟨a, _, _, rfl, rfl, rfl, rfl, rfl, rfl, rfl⟩
  | admAssign aid aname cid rev adm prio =>
    simp only [runMutOp, MutOp.target, adminAssign]
    cases hga : storeGet s cid with
    | none => exact Or.inl ⟨rfl, rfl⟩
    | some a =>
      exact Or.inr ⟨a, _, _, rfl, rfl, rfl, rfl, rfl, rfl, rfl⟩
  | admPriority aid aname cid p =>
    simp only [runMutOp, MutOp.target, adminUpdatePriority]
    cases hga : storeGet s cid with
    | none => exact Or.inl ⟨rfl, rfl⟩
    | some a =>
      exact Or.inr ⟨a, _, _, rfl, rfl, rfl, rfl, rfl, rfl, rfl⟩

theorem runMutOp_keys (op : MutOp) (s : Store) (hs : (storeKeys s).Nodup) :
    storeKeys ((runMutOp op s).2) = storeKeys s := by
  rcases runMutOp_spec op s hs with ⟨_, h2⟩ | ⟨a, a', e, ha, _, h2, hk, _, _, _⟩
  · rw [h2]
  · rw [h2]
    exact storeKeys_put (by rw [hk]; exact storeGet_key ha)

theorem runMutOp_timeline_mono (op : MutOp) (s : Store) (x : Nat)
    (hs : (storeKeys s).Nodup) :
    timelineLen s x ≤ timelineLen ((runMutOp op s).2) x := by
  rcases runMutOp_spec op s hs with ⟨_, h2⟩ | ⟨a, a', e, ha, _, h2, hk, _, _, ht⟩
  · rw [h2]
  · rw [h2]
    have hak : a.caseKey = op.target := storeGet_key ha
    by_cases hx : x = op.target
    · subst hx
      rw [timelineLen, timelineLen, storeGet_put_same ha (by rw [hk, hak]), ha]
      simp [ht]
    · rw [timelineLen, timelineLen, storeGet_put_other (by rw [hk, hak]) hx]

theorem runMutOp_timeline_succ (op : MutOp) (s : Store) (b : Appeal)
    (hs : (storeKeys s).Nodup) (hok : (runMutOp op s).1 = ApiResult.ok b) :
    timelineLen ((runMutOp op s).2) op.target = timelineLen s op.target + 1 := by
  rcases runMutOp_spec op s hs with ⟨h1, _⟩ | ⟨a, a', e, ha, _, h2, hk, _, _, ht⟩
  · rw [hok] at h1
    simp [ApiResult.isOk] at h1
  · rw [h2]
    have hak : a.caseKey = op.target := storeGet_key ha
    rw [timelineLen, timelineLen, storeGet_put_same ha (by rw [hk, hak]), ha]
    simp [ht]

theorem runAll_timeline (ops : List MutOp) (s : Store) (cid : Nat)
    (hs : (storeKeys s).Nodup) (htg : ∀ op ∈ ops, MutOp.target op = cid)
    (hok : allOk ops s = true) :
    timelineLen (runAll ops s) cid = timelineLen s cid + ops.length := by
  induction ops generalizing s with
  | nil => simp [runAll]
  | cons op rest ih =>
    rcases hrm : runMutOp op s with ⟨r, s'⟩
    cases r with
    | ok b =>
      have hkeys : storeKeys s' = storeKeys s := by
        have h := runMutOp_keys op s hs
        rw [hrm] at h
        exact h
      have hs' : (storeKeys s').Nodup := by rw [hkeys]; exact hs
      have hstep : timelineLen s' cid = timelineLen s cid + 1 := by
        have h := runMutOp_timeline_succ op s b hs (by rw [hrm])
        rw [hrm, htg op (by simp)] at h
        exact h
      have hok' : allOk rest s' = true := by
        simp only [allOk, hrm] at hok
        exact hok
      have hrest := ih s' hs' (fun o ho => htg o (by simp [ho])) hok'
      simp only [runAll, List.foldl_cons, hrm] at hrest ⊢
      rw [hrest, hstep, List.length_cons]
      omega
    | notFound =>
      simp only [allOk, hrm] at hok
      exact Bool.noConfusion hok
    | forbidden =>
      simp only [allOk, hrm] at hok
      exact Bool.noConfusion hok
    | badRequest =>
      simp only [allOk, hrm] at hok
      exact Bool.noConfusion hok
    | serverError =>
      simp only [allOk, hrm] at hok
      exact Bool.noConfusion hok

/-! ### Allocator lemmas -/

theorem firstFresh_sound : ∀ {probe : String → Bool} {year : Nat} {l : List String}
    {cand : String}, firstFresh probe year l = some cand →
    probe cand = false ∧ ∃ c ∈ l, cand = genCandidate year c := by
  intro probe year l cand h
  induction l with
  | nil => simp [firstFresh] at h
  | cons c cs ih =>
    simp only [firstFresh] at h
    split at h
    · rcases ih h with ⟨h1, c2, hc2, he⟩
      exact ⟨h1, c2, by simp [hc2], he⟩
    · rename_i hp
      cases h
      exact ⟨by simpa using hp, c, by simp, rfl⟩

theorem firstFresh_exhausted : ∀ {probe : String → Bool} {year : Nat} {l : List String},
    (∀ c ∈ l, probe (genCandidate year c) = true) → firstFresh probe year l = none := by
  intro probe year l h
  induction l with
  | nil => rfl
  | cons c cs ih =>
    simp only [firstFresh]
    rw [if_pos (h c (by simp))]
    exact ih (fun c2 hc2 => h c2 (by simp [hc2]))

theorem genCandidate_ne_empty (year : Nat) (c : String) : genCandidate year c ≠ "" := by
  intro h
  have hlen : (genCandidate year c).length = 0 := by rw [h]; rfl
  simp only [genCandidate, String.length_append] at hlen
  have h4 : ("APL-" : String).length = 4 := rfl
  rw [h4] at hlen
  omega

theorem generateAppealId_format {probe : String → Bool} {year : Nat}
    {codes : List String} {ts6 : String}
    (h6 : ∀ c ∈ codes, sixDigit c) (hts : sixDigit ts6) :
    specCaseIdFormat year (generateAppealId probe year codes ts6) := by
  unfold generateAppealId
  cases hf : firstFresh probe year (codes.take 5) with
  | some cand =>
    rcases firstFresh_sound hf with ⟨_, c, hc, he⟩
    exact ⟨c, h6 c (List.take_subset _ _ hc), he⟩
  | none => exact ⟨ts6, hts, rfl⟩

theorem generateAppealId_ne_empty (probe : String → Bool) (year : Nat)
    (codes : List String) (ts6 : String) :
    generateAppealId probe year codes ts6 ≠ "" := by
  unfold generateAppealId
  cases hf : firstFresh probe year (codes.take 5) with
  | some cand =>
    rcases firstFresh_sound hf with ⟨_, c, _, he⟩
    rw [he]
    exact genCandidate_ne_empty year c
  | none => exact genCandidate_ne_empty year ts6

/-! ### appealId uniqueness across the persisted collection -/

/-- Pairwise-distinct appealId column, the invariant backing `unique: true`. -/
def appealIdsUnique (s : Store) : Prop :=
  (s.map (fun a => a.appealId)).Nodup

theorem storeInsertNew_unique {s s' : Store} {a : Appeal}
    (hu : appealIdsUnique s) (h : storeInsertNew s a = some s') :
    appealIdsUnique s' := by
  unfold storeInsertNew at h
  split at h
  · exact absurd h (by simp)
  · rename_i hn
    cases h
    unfold appealIdsUnique at hu ⊢
    simp only [List.map_append, List.map_cons, List.map_nil]
    rw [List.nodup_append]
    refine ⟨hu, by simp, ?_⟩
    intro x hx
    simp only [List.mem_singleton]
    rcases List.mem_map.mp hx with ⟨b, hb, he⟩
    simp only [storeHasAppealId] at hn
    simp at hn
    intro hxa
    exact hn b hb (he.trans hxa)

theorem runMutOp_preserves_appealId (op : MutOp) (s : Store) (cid : Nat) (a : Appeal)
    (hs : (storeKeys s).Nodup) (h : storeGet s cid = some a) :
    ∃ a2, storeGet ((runMutOp op s).2) cid = some a2 ∧ a2.appealId = a.appealId := by
  rcases runMutOp_spec op s hs with ⟨_, h2⟩ | ⟨b, b', e, hb, _, h2, hk, hid, _, _⟩
  · exact ⟨a, by rw [h2, h], rfl⟩
  · rw [h2]
    have hbk : b.caseKey = op.target := storeGet_key hb
    by_cases hx : cid = op.target
    · subst hx
      rw [hb] at h
      cases h
      exact ⟨b', storeGet_put_same hb (by rw [hk, hbk]), hid⟩
    · exact ⟨a, by rw [storeGet_put_other (by rw [hk, hbk]) hx, h], rfl⟩

/-! ### Claim theorems -/

/-- C6: identifier allocation consults at most the first five drawn codes,
takes the first candidate whose existence probe fails (so the chosen id is not
in the store), falls back to the timestamp-derived candidate when all five
attempts collide instead of failing creation, always yields a nonempty id, and
a successfully created case is persisted with that nonempty caseId. -/
theorem identity_allocator_spec (probe : String → Bool) (year : Nat)
    (codes : List String) (ts6 : String) :
    generateAppealId probe year codes ts6
        = generateAppealId probe year (codes.take 5) ts6
    ∧ (∀ cand, firstFresh probe year (codes.take 5) = some cand →
        generateAppealId probe year codes ts6 = cand ∧ probe cand = false
          ∧ ∃ c ∈ codes.take 5, cand = genCandidate year c)
    ∧ ((∀ c ∈ codes.take 5, probe (genCandidate year c) = true) →
        generateAppealId probe year codes ts6 = genCandidate year ts6)
    ∧ generateAppealId probe year codes ts6 ≠ ""
    ∧ (∀ (s : Store) (uid : Nat) (sid : String) (req : CreateReq) (k : Nat)
        (b : Appeal) (s' : Store),
        createAppeal s uid sid req k year codes ts6 = (ApiResult.ok b, s') →
        b.appealId ≠ "" ∧ b.appealId = generateAppealId (storeHasAppealId s) year codes ts6) := by
  refine ⟨?_, ?_, ?_, ?_, ?_⟩
  · unfold generateAppealId
    simp [List.take_take]
  · intro cand h
    refine ⟨?_, (firstFresh_sound h).1, (firstFresh_sound h).2⟩
    unfold generateAppealId
    rw [h]
  · intro h
    unfold generateAppealId
    rw [firstFresh_exhausted h]
  · exact generateAppealId_ne_empty probe year codes ts6
  · intro s uid sid req k b s' h
    unfold createAppeal at h
    split at h
    · simp at h
    · split at h
      · simp at h
      · dsimp only at h
        split at h
        · rename_i s2 hins
          simp only [Prod.mk.injEq, ApiResult.ok.injEq] at h
          rw [← h.1]
          exact ⟨generateAppealId_ne_empty _ _ _ _, rfl⟩
        · simp at h

/-- C6 witness: with the first code taken and the second free, the allocator
returns the second candidate, which the probe reports as unused. -/
theorem identity_allocator_spec_witness :
    generateAppealId (fun c => c == "APL-2025-111111") 2025 ["111111", "222222"] "999999"
      = "APL-2025-222222"
    ∧ (fun c => c == "APL-2025-111111") "APL-2025-222222" = false :=
  ⟨((identity_allocator_spec (fun c => c == "APL-2025-111111") 2025
      ["111111", "222222"] "999999").2.1 "APL-2025-222222" (by decide)).1,
   ((identity_allocator_spec (fun c => c == "APL-2025-111111") 2025
      ["111111", "222222"] "999999").2.1 "APL-2025-222222" (by decide)).2.1⟩

/-- C2 counterexample: the legacy schema pre-save hook draws a 3-digit code,
so a case created under it (random draw 5, year 2025) carries caseId
APL-2025-005, which does not have the claimed APL-year-6-digit format. -/
theorem legacy_caseId_not_six_digit :
    ¬ specCaseIdFormat 2025 (legacyAppealId none 2025 5) := by
  intro h
  rcases h with ⟨code, ⟨h6, _⟩, he⟩
  have h1 : legacyAppealId none 2025 5 = "APL-2025-005" := rfl
  rw [h1] at he
  have hlen := congrArg String.length he
  rw [show ("APL-2025-005" : String).length = 12 from rfl] at hlen
  simp only [String.length_append] at hlen
  rw [show ("APL-" : String).length = 4 from rfl,
    show (toString (2025 : Nat) : String).length = 4 from rfl,
    show ("-" : String).length = 1 from rfl] at hlen
  omega

/-- C2 amended: under the nanoid schema the generated caseId has the
APL-year-6-digit format whenever the drawn codes and the timestamp suffix are
6-digit strings; the pre-save hook assigns the id only when it is absent and
leaves an existing id untouched; the unique index keeps the persisted caseId
column duplicate-free; and no mutating operation ever changes the caseId of a
stored case.  (The legacy schema emits 3-digit codes, per the
counterexample.) -/
theorem caseId_format_unique_immutable :
    (∀ (idStr : String) (probe : String → Bool) (year : Nat) (codes : List String)
      (ts6 : String), preSaveAppealId (some idStr) probe year codes ts6 = idStr)
    ∧ (∀ (probe : String → Bool) (year : Nat) (codes : List String) (ts6 : String),
        (∀ c ∈ codes, sixDigit c) → sixDigit ts6 →
        specCaseIdFormat year (preSaveAppealId none probe year codes ts6))
    ∧ (∀ (s s' : Store) (a : Appeal), appealIdsUnique s →
        storeInsertNew s a = some s' → appealIdsUnique s')
    ∧ (∀ (op : MutOp) (s : Store) (cid : Nat) (a : Appeal), (storeKeys s).Nodup →
        storeGet s cid = some a →
        ∃ a2, storeGet ((runMutOp op s).2) cid = some a2 ∧ a2.appealId = a.appealId) :=
  ⟨fun _ _ _ _ _ => rfl,
   fun _ _ _ _ h6 hts => generateAppealId_format h6 hts,
   fun _ _ _ hu h => storeInsertNew_unique hu h,
   fun op s cid a hs h => runMutOp_preserves_appealId op s cid a hs h⟩

/-- C2 witness: a concrete 6-digit draw yields a well-formatted id, and a
priority update leaves the stored caseId unchanged. -/
theorem caseId_format_unique_immutable_witness :
    specCaseIdFormat 2025 (preSaveAppealId none (fun _ => false) 2025 ["123456"] "654321")
    ∧ ∃ a2, storeGet ((runMutOp (MutOp.admPriority 9 "Ada" 1 Priority.high) fxStore).2) 1
        = some a2 ∧ a2.appealId = fxAppeal.appealId :=
  ⟨caseId_format_unique_immutable.2.1 (fun _ => false) 2025 ["123456"] "654321"
      (by decide) (by decide),
   caseId_format_unique_immutable.2.2.2 (MutOp.admPriority 9 "Ada" 1 Priority.high)
      fxStore 1 fxAppeal (by decide) (by decide)⟩

/-- C7: creation succeeds only when the declaration, deadline-acknowledgement
and final-confirmation flags are all true and the supplied student identifier
equals the authenticated student's registered one; a successfully created case
has status submitted, belongs to the requesting student, and its timeline is
exactly the one submitted entry. -/
theorem createAppeal_spec (s : Store) (uid : Nat) (sid : String) (req : CreateReq)
    (k year : Nat) (codes : List String) (ts6 : String) :
    ((createAppeal s uid sid req k year codes ts6).1.isOk = true →
      req.declaration = true ∧ req.deadlineCheck = true ∧ req.confirmAll = true
        ∧ req.studentId = sid)
    ∧ (∀ b, (createAppeal s uid sid req k year codes ts6).1 = ApiResult.ok b →
        b.status = Status.submitted ∧ b.student = uid
          ∧ b.timeline = [⟨"Appeal submitted",
              "Appeal created and submitted for review - Type: " ++ req.appealType, uid⟩]) := by
  constructor
  · intro hok
    unfold createAppeal at hok
    split at hok
    · simp [ApiResult.isOk] at hok
    · rename_i hflags
      split at hok
      · simp [ApiResult.isOk] at hok
      · rename_i hsid
        simp only [Bool.not_eq_true'] at hflags
        simp only [Bool.not_eq_false] at hflags
        simp only [Bool.and_eq_true] at hflags
        simp only [ne_eq, not_not] at hsid
        exact ⟨hflags.1.1, hflags.1.2, hflags.2, hsid⟩
  · intro b hb
    unfold createAppeal at hb
    split at hb
    · simp at hb
    · split at hb
      · simp at hb
      · dsimp only at hb
        split at hb
        · simp only [ApiResult.ok.injEq] at hb
          rw [← hb]
          exact ⟨rfl, rfl, rfl⟩
        · simp at hb

/-- C7 witness: the fixture creation against the empty store produces the
submitted case with the single submitted timeline entry. -/
theorem createAppeal_spec_witness :
    fxCreated.status = Status.submitted ∧ fxCreated.student = 2
      ∧ fxCreated.timeline = [⟨"Appeal submitted",
          "Appeal created and submitted for review - Type: " ++ "Other", 2⟩] :=
  (createAppeal_spec [] 2 "s100" ⟨true, true, true, "s100", "Other"⟩ 1 2025
    ["123456"] "654321").2 fxCreated (by decide)

/-- C1 counterexample: the plain student case-view surface returns the notes
list unfiltered, so the owning student (id 2) reading the fixture case
receives its internal note; the multipart surface filters it out. -/
theorem studentView_plain_leaks_internal_note :
    resultHasInternalNote (studentGetAppeal fxStore 2 1) = true
    ∧ resultHasInternalNote (studentGetAppealFiltered fxStore 2 1) = false := by
  decide

/-- C1 amended: the internal-note filter holds on the multipart student
case-view surface, for every store and note set: a case view it returns never
contains a note with isInternal = true.  The plain student case-view surface
returns notes unfiltered, so the filter is not applied on every read path
(see the counterexample). -/
theorem studentView_filtered_hides_internal_notes (s : Store) (uid cid : Nat)
    (v : Appeal) (h : studentGetAppealFiltered s uid cid = ApiResult.ok v) :
    ∀ n ∈ v.notes, n.isInternal = false := by
  unfold studentGetAppealFiltered at h
  cases hg : storeGetOwned s cid uid with
  | none =>
    rw [hg] at h
    simp at h
  | some a =>
    rw [hg] at h
    simp only [ApiResult.ok.injEq] at h
    intro n hn
    rw [← h] at hn
    simp only [List.mem_filter, Bool.not_eq_true'] at hn
    exact hn.2

/-- C1 witness: the filtered view of the fixture case carries no internal
note. -/
theorem studentView_filtered_hides_internal_notes_witness :
    resultHasInternalNote (studentGetAppealFiltered fxStore 2 1) = false := by
  have hv : studentGetAppealFiltered fxStore 2 1
      = ApiResult.ok { fxAppeal with notes := [⟨"visible student note", 2, false⟩] } := by
    decide
  have h := studentView_filtered_hides_internal_notes fxStore 2 1 _ hv
  rw [hv]
  simp only [resultHasInternalNote]
  rw [List.any_eq_false]
  intro n hn
  rw [h n hn]
  exact Bool.noConfusion

/-- C3 counterexample: the fixture case 2 carries no assignedReviewer, so its
assignedReviewer does not equal reviewer 8; on the strict surface this
reviewer is forbidden from transition and decision, yet the note-adding route
— whose check is the lenient variant — accepts the note and mutates the
case. -/
theorem strictAddNote_allows_unassigned_reviewer :
    storeGet fxStore2 2 = some fxAppeal2
    ∧ fxAppeal2.assignedReviewer = none
    ∧ (strictAddNote fxStore2 8 "Eve" 2 "ping" none).1.isOk = true
    ∧ (strictAddNote fxStore2 8 "Eve" 2 "ping" none).2 ≠ fxStore2 := by
  decide

/-- C3 amended: on the strict reviewer surface, a reviewer facing a case
assigned to a different reviewer receives Forbidden from the status
transition, from recordDecision and from note-adding, with the store exactly
as before each call; on a case with no assigned reviewer, transition and
recordDecision are still Forbidden without mutation, but note-adding — whose
assignment check is the lenient variant — succeeds. -/
theorem strict_surface_reviewer_policy
    (s : Store) (rid : Nat) (rname : String) (cid : Nat) (a : Appeal)
    (st : Status) (note : Option String) (oc : Outcome) (reason content : String)
    (internal : Option Bool) (now : Nat)
    (ha : storeGet s cid = some a)
    (hst : st ≠ Status.submitted) (hreason : jsTrim reason ≠ "")
    (hcontent : jsTrim content ≠ "") :
    (∀ r2, a.assignedReviewer = some r2 → r2 ≠ rid →
      strictUpdateStatus s rid rname cid st note = (ApiResult.forbidden, s)
      ∧ strictDecision s rid cid oc reason now = (ApiResult.forbidden, s)
      ∧ strictAddNote s rid rname cid content internal = (ApiResult.forbidden, s))
    ∧ (a.assignedReviewer = none →
      strictUpdateStatus s rid rname cid st note = (ApiResult.forbidden, s)
      ∧ strictDecision s rid cid oc reason now = (ApiResult.forbidden, s)
      ∧ (strictAddNote s rid rname cid content internal).1.isOk = true) := by
  constructor
  · intro r2 hr hne
    have hg : notStrictlyAssigned a rid = true := by
      simp [notStrictlyAssigned, hr, hne]
    have hg2 : assignedToOther a rid = true := by
      simp [assignedToOther, hr, hne]
    refine ⟨?_, ?_, ?_⟩
    · unfold strictUpdateStatus
      rw [if_neg hst, ha]
      simp [hg]
    · unfold strictDecision
      rw [if_neg hreason, ha]
      simp [hg]
    · unfold strictAddNote
      rw [if_neg hcontent, ha]
      simp [hg2]
  · intro hr
    have hg : notStrictlyAssigned a rid = true := by
      simp [notStrictlyAssigned, hr]
    have hg2 : assignedToOther a rid = false := by
      simp [assignedToOther, hr]
    refine ⟨?_, ?_, ?_⟩
    · unfold strictUpdateStatus
      rw [if_neg hst, ha]
      simp [hg]
    · unfold strictDecision
      rw [if_neg hreason, ha]
      simp [hg]
    · unfold strictAddNote
      rw [if_neg hcontent, ha]
      simp [hg2, ApiResult.isOk]

/-- C3 witness: reviewer 8 against case 1 (assigned to reviewer 7) and
against the unassigned case 2. -/
theorem strict_surface_reviewer_policy_witness :
    strictDecision fxStore 8 1 Outcome.upheld "justified" 5 = (ApiResult.forbidden, fxStore)
    ∧ (strictAddNote fxStore2 8 "Eve" 2 "ping" none).1.isOk = true :=
  ⟨((strict_surface_reviewer_policy fxStore 8 "Eve" 1 fxAppeal Status.underReview none
      Outcome.upheld "justified" "a note" none 5 (by decide) (by decide) (by decide)
      (by decide)).1 7 (by decide) (by decide)).2.1,
   ((strict_surface_reviewer_policy fxStore2 8 "Eve" 2 fxAppeal2 Status.underReview none
      Outcome.upheld "justified" "ping" none 5 (by decide) (by decide) (by decide)
      (by decide)).2 (by decide)).2.2⟩

/-- C5: a successful recordDecision stores the decision record (outcome,
trimmed reason, decision date, deciding principal) and appends exactly one
decision timeline entry; on the reviewer surface the status becomes resolved
when the outcome is withdrawn and decision made otherwise, while the shared
admin-or-reviewer surface always sets decision made. -/
theorem recordDecision_effects
    (s : Store) (rid uid : Nat) (rname : String) (cid : Nat) (a : Appeal)
    (oc : Outcome) (reason : String) (now : Nat)
    (ha : storeGet s cid = some a) (hreason : jsTrim reason ≠ "")
    (hassign : assignedToOther a rid = false)
    (hassign2 : assignedToOther a uid = false) :
    (∃ a' e, reviewerDecision s rid rname cid oc reason now
        = (ApiResult.ok a', storePut s cid a')
      ∧ a'.decision = some ⟨oc, jsTrim reason, now, rid⟩
      ∧ a'.status = (if oc = Outcome.withdrawn then Status.resolved else Status.decisionMade)
      ∧ a'.timeline = a.timeline ++ [e] ∧ e.action = "Decision made")
    ∧ (∃ a' e, sharedDecision s uid cid oc reason now
        = (ApiResult.ok a', storePut s cid a')
      ∧ a'.decision = some ⟨oc, jsTrim reason, now, uid⟩
      ∧ a'.status = Status.decisionMade
      ∧ a'.timeline = a.timeline ++ [e] ∧ e.action = "Decision made") := by
  constructor
  · unfold reviewerDecision
    rw [if_neg hreason, ha]
    simp only [hassign, Bool.false_eq_true, if_false]
    exact ⟨_, _, rfl, rfl, rfl, rfl, rfl⟩
  · unfold sharedDecision
    rw [if_neg hreason, ha]
    simp only [hassign2, Bool.false_eq_true, if_false]
    exact ⟨_, _, rfl, rfl, rfl, rfl, rfl⟩

/-- C5 witness: the assigned reviewer 7 decides the fixture case. -/
theorem recordDecision_effects_witness :
    (reviewerDecision fxStore 7 "Eve" 1 Outcome.upheld "justified" 5).1.isOk = true
    ∧ (sharedDecision fxStore 7 1 Outcome.upheld "justified" 5).1.isOk = true := by
  obtain ⟨⟨a', e, h1, _⟩, ⟨b', e2, h2, _⟩⟩ :=
    recordDecision_effects fxStore 7 7 "Eve" 1 fxAppeal Outcome.upheld "justified" 5
      (by decide) (by decide) (by decide) (by decide)
  constructor
  · rw [show (reviewerDecision fxStore 7 "Eve" 1 Outcome.upheld "justified" 5).1
        = ApiResult.ok a' from by rw [h1]]
    rfl
  · rw [show (sharedDecision fxStore 7 1 Outcome.upheld "justified" 5).1
        = ApiResult.ok b' from by rw [h2]]
    rfl

/-- C4: over the embedded mutating operations (status change, decision,
assignment, priority change, note add), the timeline of every case never
shrinks; a successful call appends exactly one entry to its target case; a
sequence of successful calls against one case grows its timeline by exactly
the number of calls; and a freshly created case starts with exactly the one
submitted entry.  The Nodup hypothesis is the Mongo guarantee that `_id`
values are distinct. -/
theorem timeline_append_only_invariants :
    (∀ (op : MutOp) (s : Store) (x : Nat), (storeKeys s).Nodup →
      timelineLen s x ≤ timelineLen ((runMutOp op s).2) x)
    ∧ (∀ (op : MutOp) (s : Store) (b : Appeal), (storeKeys s).Nodup →
      (runMutOp op s).1 = ApiResult.ok b →
      timelineLen ((runMutOp op s).2) op.target = timelineLen s op.target + 1)
    ∧ (∀ (ops : List MutOp) (s : Store) (cid : Nat), (storeKeys s).Nodup →
      (∀ op ∈ ops, MutOp.target op = cid) → allOk ops s = true →
      timelineLen (runAll ops s) cid = timelineLen s cid + ops.length)
    ∧ (∀ (s : Store) (uid : Nat) (sid : String) (req : CreateReq) (k year : Nat)
        (codes : List String) (ts6 : String) (b : Appeal) (s' : Store),
      createAppeal s uid sid req k year codes ts6 = (ApiResult.ok b, s') →
      b.timeline.length = 1 ∧ b.timeline.map TimelineEntry.action = ["Appeal submitted"]) := by
  refine ⟨fun op s x hs => runMutOp_timeline_mono op s x hs,
    fun op s b hs hok => runMutOp_timeline_succ op s b hs hok,
    fun ops s cid hs h1 h2 => runAll_timeline ops s cid hs h1 h2, ?_⟩
  intro s uid sid req k year codes ts6 b s' h
  unfold createAppeal at h
  split at h
  · simp at h
  · split at h
    · simp at h
    · dsimp only at h
      split at h
      · simp only [Prod.mk.injEq, ApiResult.ok.injEq] at h
        rw [← h.1]
        exact ⟨rfl, rfl⟩
      · simp at h

/-- C4 witness: a priority change followed by an admin note on the fixture
case grows its timeline by exactly two entries. -/
theorem timeline_append_only_invariants_witness :
    timelineLen (runAll [MutOp.admPriority 9 "Ada" 1 Priority.high,
        MutOp.admNote 9 "Ada" 1 "checked" none] fxStore) 1
      = timelineLen fxStore 1 + 2 :=
  timeline_append_only_invariants.2.2.1
    [MutOp.admPriority 9 "Ada" 1 Priority.high, MutOp.admNote 9 "Ada" 1 "checked" none]
    fxStore 1 (by decide) (by decide) (by decide)

/-- C8 counterexample: the only deadline-setting path of the source (the
reviewer request-info route) performs no comparison against the current time.
With deadline 0 — the epoch, in the past of every possible current time — the
call succeeds, the case is mutated and the past date is stored, where the
claim demands ValidationFailed and no mutation. -/
theorem requestInfo_accepts_past_deadline :
    (requestInfo fxStore 7 "Rev" 1 "please send documents" (some 0)).1.isOk = true
    ∧ storeDeadlineOf (requestInfo fxStore 7 "Rev" 1 "please send documents" (some 0)).2 1
        = some 0
    ∧ (requestInfo fxStore 7 "Rev" 1 "please send documents" (some 0)).2 ≠ fxStore := by
  decide

/-- C8 amended: the only deadline-setting path (reviewer request-info)
accepts every supplied date, past or future, with no ValidationFailed branch
for past dates: given a nonempty request text and the lenient assignment
check passing, it stores the date, sets the status to awaiting information,
and appends exactly one timeline entry; no internal note is created from the
request text. -/
theorem requestInfo_deadline_effects
    (s : Store) (rid : Nat) (rname : String) (cid : Nat) (a : Appeal)
    (details : String) (d : Nat)
    (ha : storeGet s cid = some a) (hd : jsTrim details ≠ "")
    (hassign : assignedToOther a rid = false) :
    ∃ a' e, requestInfo s rid rname cid details (some d)
        = (ApiResult.ok a', storePut s cid a')
      ∧ a'.status = Status.awaitingInformation
      ∧ a'.deadline = some d
      ∧ a'.timeline = a.timeline ++ [e]
      ∧ a'.notes = a.notes := by
  unfold requestInfo
  rw [if_neg hd, ha]
  simp only [hassign, Bool.false_eq_true, if_false]
  exact ⟨_, _, rfl, rfl, rfl, rfl, rfl⟩

/-- C8 witness: the assigned reviewer sets a (future-looking) deadline. -/
theorem requestInfo_deadline_effects_witness :
    (requestInfo fxStore 7 "Rev" 1 "docs" (some 999999)).1.isOk = true := by
  obtain ⟨a', e, h1, _⟩ := requestInfo_deadline_effects fxStore 7 "Rev" 1 fxAppeal
    "docs" 999999 (by decide) (by decide) (by decide)
  rw [show (requestInfo fxStore 7 "Rev" 1 "docs" (some 999999)).1
      = ApiResult.ok a' from by rw [h1]]
  rfl

theorem bulkAssign_perm (aid : Nat) (aname : String) (rev adm : Option Nat)
    (prio : Option Priority) : ∀ (ids : List Nat) (s : Store),
    ((bulkAssign aid aname rev adm prio ids s).1
      ++ (bulkAssign aid aname rev adm prio ids s).2.1).Perm ids := by
  intro ids
  induction ids with
  | nil =>
    intro s
    simp [bulkAssign]
  | cons cid rest ih =>
    intro s
    simp only [bulkAssign]
    cases hg : storeGet s cid with
    | none => exact List.perm_middle.trans ((ih s).cons cid)
    | some a => exact (ih _).cons cid

/-- C9: bulk assignment processes every supplied case key even when some keys
fail to resolve: the returned result reports successes and failures
separately, together they are a permutation of the supplied keys, their
counts add up to the number of keys, and every supplied key lands in exactly
one of the two lists. -/
theorem bulkAssign_partial_failure (aid : Nat) (aname : String)
    (rev adm : Option Nat) (prio : Option Priority) (ids : List Nat) (s : Store) :
    ((bulkAssign aid aname rev adm prio ids s).1
        ++ (bulkAssign aid aname rev adm prio ids s).2.1).Perm ids
    ∧ (bulkAssign aid aname rev adm prio ids s).1.length
        + (bulkAssign aid aname rev adm prio ids s).2.1.length = ids.length
    ∧ ∀ cid ∈ ids, cid ∈ (bulkAssign aid aname rev adm prio ids s).1
        ∨ cid ∈ (bulkAssign aid aname rev adm prio ids s).2.1 := by
  have hperm := bulkAssign_perm aid aname rev adm prio ids s
  refine ⟨hperm, ?_, ?_⟩
  · have := hperm.length_eq
    simpa [List.length_append] using this
  · intro cid hc
    have := hperm.mem_iff.mpr hc
    simpa [List.mem_append] using this

/-- C9 witness: three keys against the two-case store, one key invalid — the
invalid key is reported rather than aborting the batch. -/
theorem bulkAssign_partial_failure_witness :
    3 ∈ (bulkAssign 9 "Ada" (some 7) none none [1, 3, 2] fxStore2).1
    ∨ 3 ∈ (bulkAssign 9 "Ada" (some 7) none none [1, 3, 2] fxStore2).2.1 :=
  (bulkAssign_partial_failure 9 "Ada" (some 7) none none [1, 3, 2] fxStore2).2.2
    3 (by decide)

/-- C10: evaluation at the failing input.  The owner-scoped student lookup
makes a case owned by another student indistinguishable from a missing case,
and never yields Forbidden: note-adding returns NotFound for both and leaves
the store untouched.  But both student case-view routes read a property of
the (null) lookup result before their not-found check, so the view requests
surface as the caught-exception ServerError — identical for foreign and
missing cases — instead of the NotFound the claim states. -/
theorem student_lookup_owner_scoped_results :
    studentGetAppeal fxStore 1 1 = ApiResult.serverError
    ∧ studentGetAppeal fxStore 1 99 = ApiResult.serverError
    ∧ studentGetAppealFiltered fxStore 1 1 = ApiResult.serverError
    ∧ (studentAddNote fxStore 1 "Sam" 1 "hello").1 = ApiResult.notFound
    ∧ (studentAddNote fxStore 1 "Sam" 1 "hello").2 = fxStore
    ∧ (studentAddNote fxStore 1 "Sam" 99 "hello").1 = ApiResult.notFound
    ∧ (studentAddNote fxStore 1 "Sam" 99 "hello").2 = fxStore := by
  decide

end SAM
